import Mathlib

/-!
Shallow embedding of `src/analyze.py`, a three-stage pandas reporting
pipeline over civil-service hiring spreadsheets.  DataFrames are modelled
as lists of records; spreadsheet cells that may be numeric, textual or
missing are modelled by the `Value` type, with floats abstracted as exact
rationals.  Column names keep the source's Chinese identifiers.
-/

/-- A spreadsheet cell as pandas sees it: a (float) number, a string,
or a missing value (NaN). Floats are abstracted as exact rationals. -/
inductive Value where
  | num (q : ℚ)
  | str (s : String)
  | na
deriving DecidableEq, Repr

/-- `True` exactly on the numeric constructor. -/
def Value.isNum : Value → Bool
  | .num _ => true
  | _ => false

/-- `True` exactly on the string constructor (an object-dtype cell that
makes float arithmetic on the column raise a `TypeError`). -/
def Value.isStr : Value → Bool
  | .str _ => true
  | _ => false

/-- Parse an unsigned decimal integer from a list of characters;
returns the value and the remaining characters. `none` if no digit. -/
def parseDigits : List Char → Option (ℕ × List Char)
  | [] => none
  | c :: cs =>
    if c.isDigit then
      match parseDigits cs with
      | some (n, rest) => some (c.toNat - '0'.toNat + 10 * n, rest)
      | none => some (c.toNat - '0'.toNat, cs)
    else none

/-- Digits left-to-right accumulate most-significant-first. -/
def parseDigitsAcc (acc : ℕ) : List Char → ℕ × List Char
  | [] => (acc, [])
  | c :: cs =>
    if c.isDigit then parseDigitsAcc (10 * acc + (c.toNat - '0'.toNat)) cs
    else (acc, c :: cs)

/-- Embedding of `pd.to_numeric(·, errors='coerce')` on a plain decimal
string: optional sign, at least one integer digit, optional fractional
part.  Strings that are not of this shape (in particular the placeholder
`"--"`) coerce to `none` (NaN).  Scientific notation and surrounding
whitespace, which the source's data never uses, are not modelled. -/
def parseNumeric (s : String) : Option ℚ :=
  let cs := s.toList
  let (sign, rest) :=
    match cs with
    | '-' :: t => ((-1 : ℚ), t)
    | '+' :: t => ((1 : ℚ), t)
    | t => ((1 : ℚ), t)
  match rest with
  | [] => none
  | c :: _ =>
    if c.isDigit then
      let (ip, rest2) := parseDigitsAcc 0 rest
      match rest2 with
      | [] => some (sign * ip)
      | '.' :: frac =>
        if frac ≠ [] ∧ frac.all Char.isDigit then
          let (fp, _) := parseDigitsAcc 0 frac
          some (sign * (ip + (fp : ℚ) / (10 : ℚ) ^ frac.length))
        else none
      | _ => none
    else none

/-- `pd.to_numeric(·, errors='coerce')` on a cell. -/
def toNumeric : Value → Option ℚ
  | .num q => some q
  | .str s => parseNumeric s
  | .na => none

/-- `.fillna('--')` on a cell that may additionally be absent because a
left join found no partner: both an absent partner and a stored NaN
render as the placeholder string. -/
def fillDash : Option Value → Value
  | some (.num q) => .num q
  | some (.str s) => .str s
  | _ => .str "--"

/-- Round a rational to the nearest integer, ties to even — the rounding
used when Python formats a float with `%.3f` (float binary rounding is
abstracted away). -/
def roundHalfEven (q : ℚ) : ℤ :=
  let f : ℤ := ⌊q⌋
  let r : ℚ := q - f
  if r < 1/2 then f
  else if 1/2 < r then f + 1
  else if f % 2 = 0 then f else f + 1

/-- The decimal form of `n < 1000` left-padded to three digits (the
fractional part of a `%.3f` rendering): hundreds, tens, units. -/
def pad3 (n : ℕ) : String :=
  String.mk [Nat.digitChar (n / 100 % 10), Nat.digitChar (n / 10 % 10),
    Nat.digitChar (n % 10)]

/-- Embedding of Python's `f"{x:+.3f}"`: an explicit leading sign, the
integer part, a dot, and exactly three fractional digits, after rounding
`x` to the nearest thousandth. -/
def fmtSigned3 (x : ℚ) : String :=
  let m : ℤ := roundHalfEven (x * 1000)
  let sign : String := if m < 0 then "-" else "+"
  sign ++ toString (m.natAbs / 1000) ++ "." ++ pad3 (m.natAbs % 1000)

/-- `as` is a prefix of `bs` (on character lists). -/
def prefixList : List Char → List Char → Bool
  | [], _ => true
  | _ :: _, [] => false
  | a :: as, b :: bs => a = b && prefixList as bs

/-- `pat` occurs as a contiguous run inside `s`. -/
def infixList (pat : List Char) : List Char → Bool
  | [] => prefixList pat []
  | b :: bs => prefixList pat (b :: bs) || infixList pat bs

/-- `series.str.contains(pat)` for a plain (regex-metacharacter-free)
pattern: substring containment. -/
def containsSub (pat s : String) : Bool :=
  infixList pat.toList s.toList

/-- Distinct keys of a list in order of first appearance (`seen`
accumulates keys already emitted). -/
def dedupFirst {K : Type} [DecidableEq K] (seen : List K) : List K → List K
  | [] => []
  | k :: ks =>
    if k ∈ seen then dedupFirst seen ks
    else k :: dedupFirst (k :: seen) ks

/-- Embedding of `df.groupby(key)`: one entry per distinct key with the
rows carrying that key, keys in first-appearance order.  (pandas emits
the groups sorted by key; that permutation of rows is irrelevant to
every per-row and per-key property proved below.) -/
def groupBy {α K : Type} [DecidableEq K] (key : α → K) (rows : List α) :
    List (K × List α) :=
  (dedupFirst [] (rows.map key)).map fun k => (k, rows.filter fun r => key r = k)

/-! ## Input row types

Column names are the spreadsheets' Chinese headers; Lean identifiers
cannot contain CJK characters, so each field carries its header in a
comment: `agency` = 招录机关, `posCode` = 职位代码, `department` = 用人司局,
`title` = 招考职位, `minScore` = 最低面试分数, `deptName` = 部门名称,
`name` = 姓名, `suppMinScore` = 递补入围面试最低分数,
`proposedPos` = 拟录用职位, `recruitTitle` = 招录职位. -/

/-- A row of the original interview roster (`2024全国进面名单.xlsx`); the
position-code column is read with `dtype=str`, so it is a `String`. -/
structure OrigRow where
  agency : String        -- 招录机关
  posCode : String       -- 职位代码
  department : String    -- 用人司局
  title : String         -- 招考职位
  minScore : Value       -- 最低面试分数
deriving DecidableEq, Repr

/-- A row of the backfill roster (`2024递补面试名单.xls`): its posting key
uses the department-name column 部门名称; the position code is read with
`dtype=str`. -/
structure SuppRow where
  deptName : String      -- 部门名称
  posCode : String       -- 职位代码
  name : String          -- 姓名
  department : String    -- 用人司局
  recruitTitle : String  -- 招录职位
  suppMinScore : Value   -- 递补入围面试最低分数
deriving DecidableEq, Repr

/-- A row of the final admission roster (`2024录用名单.xls`): the position
code must be extracted from the free-text 拟录用职位. -/
structure AdmRow where
  agency : String        -- 招录机关
  name : String          -- 姓名
  proposedPos : String   -- 拟录用职位
deriving DecidableEq, Repr

/-! ## Score Comparator (`compare_interview_scores`) -/

/-- The substring marker that restricts the original roster to the
regulator's postings (line 19 of the source). -/
def regulatorMarker : String := "国家金融监督管理"

/-- Posting key of an original-roster row: (招录机关, 职位代码). -/
def origKey (r : OrigRow) : String × String := (r.agency, r.posCode)

/-- Posting key of a backfill-roster row, its 部门名称 renamed to the
authority slot of the key: (部门名称, 职位代码). -/
def suppKey (r : SuppRow) : String × String := (r.deptName, r.posCode)

/-- A row of the Score Comparison Report, in the source's output column
order.  `origCount` (原始进面人数) is `Option ℕ` because the source never
fills that column after its left merge; `suppCount` (递补进面人数) went
through `.fillna(0).astype(int)` and so is a plain `ℕ`; `delta`
(分数线变化) is the rendered string of line 55. -/
structure CmpRow where
  agency : String         -- 招录机关
  posCode : String        -- 职位代码
  department : String     -- 用人司局
  title : String          -- 招考职位
  origCount : Option ℕ    -- 原始进面人数
  minScore : Value        -- 最低面试分数
  suppCount : ℕ           -- 递补进面人数
  suppMinScore : Value    -- 递补入围面试最低分数
  delta : String          -- 分数线变化
deriving DecidableEq, Repr

/-- Intermediate per-key record built by `original_info` (lines 25-29):
first-seen department, title and minimum score of each filtered group. -/
structure InfoRow where
  key : String × String
  department : String
  title : String
  minScore : Value
deriving DecidableEq, Repr

/-- `original_info`: group the filtered roster by posting key and take the
first row's descriptive fields (`agg 'first'`).  Groups produced by
`groupBy` are never empty, so the `head?` never drops a key. -/
def original_info (df : List OrigRow) : List InfoRow :=
  (groupBy origKey df).filterMap fun kg =>
    kg.2.head?.map fun r => ⟨kg.1, r.department, r.title, r.minScore⟩

/-- `original_counts` (line 22): size of each posting-key group of the
filtered roster. -/
def original_counts (df : List OrigRow) : List ((String × String) × ℕ) :=
  (groupBy origKey df).map fun kg => (kg.1, kg.2.length)

/-- `supplementary_counts` (lines 35-36): size of each backfill group,
keyed by (部门名称, 职位代码) renamed to the posting key. -/
def supplementary_counts (df : List SuppRow) : List ((String × String) × ℕ) :=
  (groupBy suppKey df).map fun kg => (kg.1, kg.2.length)

/-- `supplementary_scores` (lines 39-42): first-seen backfill minimum
score of each backfill group. -/
def supplementary_scores (df : List SuppRow) : List ((String × String) × Value) :=
  (groupBy suppKey df).filterMap fun kg =>
    kg.2.head?.map fun r => (kg.1, r.suppMinScore)

/-- One row after the three left merges of lines 45-47: the original info
row with the (possibly missing) joined columns.  The right-hand sides
come from `groupby` outputs, whose keys are distinct, so a `find?`
lookup is exactly pandas' many-to-one left merge. -/
structure MergedRow where
  info : InfoRow
  origCount : Option ℕ
  suppCount : Option ℕ
  suppMinScore : Option Value
deriving DecidableEq, Repr

/-- Line 19: restrict the original roster to rows whose 用人司局 contains
the regulator marker. -/
def filteredOrig (orig : List OrigRow) : List OrigRow :=
  orig.filter fun r => containsSub regulatorMarker r.department

/-- The merge chain of lines 45-47 as a per-left-row lookup. -/
def mergedRows (orig : List OrigRow) (supp : List SuppRow) : List MergedRow :=
  (original_info (filteredOrig orig)).map fun i =>
    { info := i
      origCount :=
        ((original_counts (filteredOrig orig)).find? fun kn => kn.1 = i.key).map (·.2)
      suppCount := ((supplementary_counts supp).find? fun kn => kn.1 = i.key).map (·.2)
      suppMinScore :=
        ((supplementary_scores supp).find? fun kv => kv.1 = i.key).map (·.2) }

/-- Lines 50-55 on one merged row: fill the backfill count with 0, the
backfill score with the placeholder, and render the delta.  The original
score is known (from the guard in `compare_interview_scores`) not to be
a string, so the float subtraction of line 54 cannot raise here; a NaN
original score propagates to a NaN delta, rendered as the placeholder. -/
def finishRow (m : MergedRow) : CmpRow :=
  let suppScore := fillDash m.suppMinScore
  let delta : Option ℚ :=
    match toNumeric suppScore, m.info.minScore with
    | some b, .num o => some (b - o)
    | _, _ => none
  { agency := m.info.key.1
    posCode := m.info.key.2
    department := m.info.department
    title := m.info.title
    origCount := m.origCount
    minScore := m.info.minScore
    suppCount := m.suppCount.getD 0
    suppMinScore := suppScore
    delta := match delta with | some x => fmtSigned3 x | none => "--" }

/-- `compare_interview_scores` (lines 6-70).  Returns `none` when the run
aborts: line 54 subtracts the numeric backfill column from the raw
最低面试分数 column, which raises a `TypeError` as soon as that column
holds a string cell (an object-dtype column mixing floats and strings). -/
def compare_interview_scores (orig : List OrigRow) (supp : List SuppRow) :
    Option (List CmpRow) :=
  let merged := mergedRows orig supp
  if merged.any fun m => m.info.minScore.isStr then none
  else some (merged.map finishRow)

/-! ## Backfill-Admission Matcher (`analyze_supplementary_admission`) -/

/-- `extract_position_code` (lines 127-133): `re.search(r'\d{12}$', s)`
matches iff the string ends in at least twelve digits, and then returns
exactly its last twelve characters.  (`\d` is modelled as the ASCII
digits the position codes consist of.) -/
def extract_position_code (s : String) : Option String :=
  let cs := s.toList
  if 12 ≤ cs.length ∧ (cs.drop (cs.length - 12)).all Char.isDigit then
    some (String.mk (cs.drop (cs.length - 12)))
  else none

/-- An admission row with its derived 职位代码 column (line 136);
`none` models the `None` left by a failed extraction. -/
structure AdmRowCoded where
  agency : String           -- 招录机关
  name : String             -- 姓名
  proposedPos : String      -- 拟录用职位
  posCode : Option String   -- 职位代码 (extracted)
deriving DecidableEq, Repr

/-- Line 136 on one row: attach the extracted position code. -/
def codeRow (a : AdmRow) : AdmRowCoded :=
  ⟨a.agency, a.name, a.proposedPos, extract_position_code a.proposedPos⟩

/-- Line 136: add the extracted position-code column. -/
def addPosCode (adm : List AdmRow) : List AdmRowCoded :=
  adm.map codeRow

/-- The inner-merge condition of lines 139-145: equality on
(招录机关, 职位代码, 姓名) after renaming the backfill 部门名称.  The
backfill side's code is a present string, so an admission row whose
extraction failed (`none`) matches nothing. -/
def joinMatch (s : SuppRow) (a : AdmRowCoded) : Bool :=
  a.agency = s.deptName ∧ a.posCode = some s.posCode ∧ a.name = s.name

/-- `admitted_supplementary` (lines 139-145): the inner join, one output
row per matching (backfill row, admission row) pair, in left-row order. -/
def admitted_supplementary (supp : List SuppRow) (adm : List AdmRow) :
    List (SuppRow × AdmRowCoded) :=
  supp.flatMap fun s => ((addPosCode adm).filter fun a => joinMatch s a).map fun a => (s, a)

/-- A row of the Admission Report (`2024年递补录用情况.xlsx`), in the
source's output column order: `hiredCount` = 递补录用人数,
`hiredNames` = 递补录用人员. -/
structure AdmResultRow where
  agency : String        -- 招录机关
  posCode : String       -- 职位代码
  department : String    -- 用人司局
  recruitTitle : String  -- 招录职位
  hiredCount : ℕ         -- 递补录用人数
  hiredNames : String    -- 递补录用人员
deriving DecidableEq, Repr

/-- Occurrences of the delimiter 、 in a string
(`.str.count('、')`). -/
def countDelim (s : String) : ℕ := s.toList.count '、'

/-- `'、'.join(names)`: the group's names joined with the full-width
enumeration comma. -/
def joinNames : List String → String
  | [] => ""
  | [x] => x
  | x :: y :: t => x ++ "、" ++ joinNames (y :: t)

/-- Posting key of a joined pair: the group key of line 148. -/
def pairKey (p : SuppRow × AdmRowCoded) : String × String := (p.1.deptName, p.1.posCode)

/-- `analyze_supplementary_admission` (lines 116-170): inner-join the two
rosters, group by posting key, join the group's names with 、, take
first-seen 用人司局 and 招录职位, and count hired candidates as
delimiter occurrences in the joined names plus one (line 155). -/
def analyze_supplementary_admission (supp : List SuppRow) (adm : List AdmRow) :
    List AdmResultRow :=
  (groupBy pairKey (admitted_supplementary supp adm)).filterMap fun kg =>
    kg.2.head?.map fun p =>
      let names := joinNames (kg.2.map fun q => q.1.name)
      { agency := kg.1.1
        posCode := kg.1.2
        department := p.1.department
        recruitTitle := p.1.recruitTitle
        hiredCount := countDelim names + 1
        hiredNames := names }

/-! ## Cross Analyzer (`cross_analyze_results`)

The two report files are read back with `dtype={'职位代码': str}`; the
row types written by the first two stages round-trip unchanged, so the
function is modelled directly on `List CmpRow` and `List AdmResultRow`. -/

/-- A row of the Cross Analysis Report (`2024年递补分析汇总.xlsx`).  After
`fillna('--')` every score-report column can hold the placeholder, so
the fields that were numeric become `Value`; `hiredCount` ends as an
integer after the `replace`/`to_numeric`/`fillna(0)`/`astype(int)` chain
of line 193. -/
structure CrossRow where
  agency : String        -- 招录机关
  posCode : String       -- 职位代码
  department : Value     -- 用人司局
  title : Value          -- 招考职位
  origCount : Value      -- 原始进面人数
  minScore : Value       -- 最低面试分数
  suppCount : Value      -- 递补进面人数
  suppMinScore : Value   -- 递补入围面试最低分数
  delta : Value          -- 分数线变化
  hiredCount : ℤ         -- 递补录用人数
  hiredNames : Value     -- 递补录用人员
deriving DecidableEq, Repr

/-- Posting key of a Score Comparison Report row. -/
def cmpKey (r : CmpRow) : String × String := (r.agency, r.posCode)

/-- Posting key of an Admission Report row. -/
def admResultKey (r : AdmResultRow) : String × String := (r.agency, r.posCode)

/-- `astype(int)` on a float: truncation toward zero. -/
def truncToInt (q : ℚ) : ℤ := if q < 0 then ⌈q⌉ else ⌊q⌋

/-- Line 193 on one cell of the outer-joined 递补录用人数 column:
`pd.to_numeric(cell.replace('--', '0'), errors='coerce').fillna(0).astype(int)`
after the global `fillna('--')` of line 192. -/
def coerceHiredCount (c : Option ℕ) : ℤ :=
  let filled : Value := match c with
    | some n => .num (n : ℚ)
    | none => .str "--"
  let replaced : Value := if filled = .str "--" then .str "0" else filled
  match toNumeric replaced with
  | some q => truncToInt q
  | none => truncToInt 0

/-- Build one Cross Analysis row from an outer-join partner pair (at
least one side present; the join key `k` is always populated).  Missing
cells become the placeholder via the `fillna('--')` of line 192. -/
def crossRowOf (k : String × String) (l : Option CmpRow) (r : Option AdmResultRow) :
    CrossRow :=
  { agency := k.1
    posCode := k.2
    department := fillDash (l.map fun c => .str c.department)
    title := fillDash (l.map fun c => .str c.title)
    origCount := fillDash (l.map fun c =>
      match c.origCount with | some n => .num (n : ℚ) | none => .na)
    minScore := fillDash (l.map fun c => c.minScore)
    suppCount := fillDash (l.map fun c => .num (c.suppCount : ℚ))
    suppMinScore := fillDash (l.map fun c => c.suppMinScore)
    delta := fillDash (l.map fun c => .str c.delta)
    hiredCount := coerceHiredCount (r.map fun a => a.hiredCount)
    hiredNames := fillDash (r.map fun a => .str a.hiredNames) }

/-- The full outer merge of lines 184-189 on the posting key: every left
row paired with each of its right partners (or none), then the right
rows with no left partner.  (pandas sorts the outer-join keys; that
permutation is irrelevant to the per-row properties proved below.) -/
def outerMergeRows (ls : List CmpRow) (rs : List AdmResultRow) :
    List (CrossRow) :=
  (ls.flatMap fun l =>
    match rs.filter fun r => admResultKey r = cmpKey l with
    | [] => [crossRowOf (cmpKey l) (some l) none]
    | matches_ => matches_.map fun r => crossRowOf (cmpKey l) (some l) (some r))
  ++ ((rs.filter fun r => ls.all fun l => cmpKey l ≠ admResultKey r).map fun r =>
      crossRowOf (admResultKey r) none (some r))

/-- `cross_analyze_results` (lines 172-222): outer-join the two persisted
reports on the posting key, fill unmatched cells with the placeholder,
and coerce the hired-count column back to integers.  The Excel output
formatting (column widths, text format for 职位代码) is not modelled. -/
def cross_analyze_results (scores : List CmpRow) (adm : List AdmResultRow) :
    List CrossRow :=
  outerMergeRows scores adm

/-! ## Batch entry point (lines 224-240) and `save_to_excel` (lines 72-114)

Only the file-existence gating and the paths touched are modelled: the
filesystem is the list of existing file paths. -/

/-- `score_result_file` (line 226). -/
def score_result_file : String := "2024年分数线对比结果.xlsx"

/-- `admission_result_file` (line 227). -/
def admission_result_file : String := "2024年递补录用情况.xlsx"

/-- The path `save_to_excel` writes to: `os.path.join('result', output_file)`
(line 85). -/
def savedPath (output_file : String) : String := "result/" ++ output_file

/-- The filesystem as the list of existing file paths. -/
abbrev FileSys := List String

/-- `os.path.exists`. -/
def fileExists (fs : FileSys) (p : String) : Bool := fs.contains p

/-- Writing a file: any previous file at the path is gone, the path now
exists. -/
def writeFile (fs : FileSys) (p : String) : FileSys :=
  (fs.filter fun q => q ≠ p) ++ [p]

/-- `save_to_excel`'s effect on the filesystem (lines 80-99): the file at
`result/<output_file>` is removed if present (line 88-89) and rewritten. -/
def save_to_excel_fs (fs : FileSys) (output_file : String) : FileSys :=
  writeFile fs (savedPath output_file)

/-- The `__main__` gating (lines 229-240): each of the first two stages
runs iff `os.path.exists` is false on the bare result filename — not on
the `result/` path that `save_to_excel` writes; the cross analysis always
runs, writing `result/2024年递补分析汇总.xlsx` directly.  Returns
(stage 1 ran, stage 2 ran, final filesystem). -/
def main_run (fs : FileSys) : Bool × Bool × FileSys :=
  let run1 := !fileExists fs score_result_file
  let fs1 := if run1 then save_to_excel_fs fs score_result_file else fs
  let run2 := !fileExists fs1 admission_result_file
  let fs2 := if run2 then save_to_excel_fs fs1 admission_result_file else fs1
  (run1, run2, writeFile fs2 ("result/" ++ "2024年递补分析汇总.xlsx"))

/-! ## Sample data (used by concrete witnesses and counterexamples) -/

/-- An original-roster row of a regulator posting. -/
def sampleOrig : OrigRow :=
  ⟨"国家金融监督管理总局河南监管局", "123456789012",
   "国家金融监督管理总局河南监管局本级", "一级主任科员", .num (165/2)⟩

/-- A backfill-roster row for the same posting key. -/
def sampleSupp : SuppRow :=
  ⟨"国家金融监督管理总局河南监管局", "123456789012", "张三",
   "国家金融监督管理总局河南监管局本级", "一级主任科员", .num 83⟩

/-- An admission-roster row hiring the backfill candidate. -/
def sampleAdm : AdmRow :=
  ⟨"国家金融监督管理总局河南监管局", "张三",
   "国家金融监督管理总局河南监管局本级一级主任科员123456789012"⟩

/-- The Score Comparison row produced from `[sampleOrig]`, `[sampleSupp]`. -/
def sampleCmpOut : CmpRow :=
  ⟨"国家金融监督管理总局河南监管局", "123456789012",
   "国家金融监督管理总局河南监管局本级", "一级主任科员",
   some 1, .num (165/2), 1, .num 83, "+0.500"⟩

/-- The Score Comparison row produced from `[sampleOrig]` with no
backfill activity. -/
def sampleCmpNoSupp : CmpRow :=
  ⟨"国家金融监督管理总局河南监管局", "123456789012",
   "国家金融监督管理总局河南监管局本级", "一级主任科员",
   some 1, .num (165/2), 0, .str "--", "--"⟩

/-- The Admission Report row produced from `[sampleSupp]`, `[sampleAdm]`. -/
def sampleAdmResult : AdmResultRow :=
  ⟨"国家金融监督管理总局河南监管局", "123456789012",
   "国家金融监督管理总局河南监管局本级", "一级主任科员", 1, "张三"⟩

/-- The Cross Analysis row joining `sampleCmpOut` with `sampleAdmResult`. -/
def sampleCrossOut : CrossRow :=
  ⟨"国家金融监督管理总局河南监管局", "123456789012",
   .str "国家金融监督管理总局河南监管局本级", .str "一级主任科员",
   .num 1, .num (165/2), .num 1, .num 83, .str "+0.500", 1, .str "张三"⟩

/-- An original-roster row whose 用人司局 does not contain the regulator
marker: its posting key is filtered out of the Score Comparison Report. -/
def c2CexOrig : OrigRow := ⟨"其他机关", "999999999999", "其他部门", "职位X", .num 70⟩

/-- A backfill row whose candidate name contains the delimiter 、. -/
def c6Supp : SuppRow := ⟨"某部门", "555555555555", "张、三", "某司局", "某职位", .num 80⟩

/-- The matching admission row for `c6Supp`. -/
def c6Adm : AdmRow := ⟨"某部门", "张、三", "xx555555555555"⟩

/-- The Admission Report row produced from `[c6Supp]`, `[c6Adm]`: one
matched candidate, but a hired count of 2. -/
def c6Row : AdmResultRow := ⟨"某部门", "555555555555", "某司局", "某职位", 2, "张、三"⟩

/-- An admission row matching no backfill row (different agency, name and
position code). -/
def c3AdmNoMatch : AdmRow := ⟨"别的机关", "李四", "职位xx999999999999"⟩

/-- A proposed-position free-text string ending in twelve digits. -/
def c5str : String := "国家金融监督管理总局机关一级主任科员410100100001"

/-! ## Lemmas about the grouping embedding -/

theorem mem_dedupFirst {K : Type} [DecidableEq K] {a : K} :
    ∀ {seen l : List K}, a ∈ dedupFirst seen l ↔ a ∈ l ∧ a ∉ seen := by
  intro seen l
  induction l generalizing seen with
  | nil => simp [dedupFirst]
  | cons k ks ih =>
    by_cases hk : k ∈ seen
    · rw [dedupFirst, if_pos hk, ih]
      simp only [List.mem_cons]
      constructor
      · rintro ⟨h1, h2⟩
        exact ⟨Or.inr h1, h2⟩
      · rintro ⟨h1 | h1, h2⟩
        · exact absurd (h1 ▸ hk) h2
        · exact ⟨h1, h2⟩
    · rw [dedupFirst, if_neg hk]
      simp only [List.mem_cons, ih]
      constructor
      · rintro (rfl | ⟨h1, h2⟩)
        · exact ⟨Or.inl rfl, hk⟩
        · exact ⟨Or.inr h1, fun hs => h2 (Or.inr hs)⟩
      · rintro ⟨rfl | h1, h2⟩
        · exact Or.inl rfl
        · by_cases hak : a = k
          · exact Or.inl hak
          · exact Or.inr ⟨h1, fun hs => hs.elim hak h2⟩

theorem nodup_dedupFirst {K : Type} [DecidableEq K] :
    ∀ {seen l : List K}, (dedupFirst seen l).Nodup := by
  intro seen l
  induction l generalizing seen with
  | nil => simp [dedupFirst]
  | cons k ks ih =>
    by_cases hk : k ∈ seen
    · rw [dedupFirst, if_pos hk]
      exact ih
    · rw [dedupFirst, if_neg hk]
      exact List.nodup_cons.mpr
        ⟨fun hm => (mem_dedupFirst.mp hm).2 (List.mem_cons_self _ _), ih⟩

theorem mem_groupBy {α K : Type} [DecidableEq K] {key : α → K} {rows : List α}
    {kg : K × List α} :
    kg ∈ groupBy key rows ↔
      kg.1 ∈ dedupFirst [] (rows.map key) ∧
        kg.2 = rows.filter fun r => key r = kg.1 := by
  unfold groupBy
  constructor
  · intro h
    obtain ⟨k, hk, hkg⟩ := List.mem_map.mp h
    cases hkg
    exact ⟨hk, rfl⟩
  · rintro ⟨h1, h2⟩
    refine List.mem_map.mpr ⟨kg.1, h1, ?_⟩
    cases kg
    simp only at h2
    rw [← h2]

theorem groupBy_key_mem {α K : Type} [DecidableEq K] {key : α → K} {rows : List α}
    {kg : K × List α} (h : kg ∈ groupBy key rows) : kg.1 ∈ rows.map key :=
  (mem_dedupFirst.mp (mem_groupBy.mp h).1).1

theorem groupBy_nonempty {α K : Type} [DecidableEq K] {key : α → K} {rows : List α}
    {kg : K × List α} (h : kg ∈ groupBy key rows) : kg.2 ≠ [] := by
  obtain ⟨h1, h2⟩ := mem_groupBy.mp h
  obtain ⟨r, hr, hkr⟩ := List.mem_map.mp (mem_dedupFirst.mp h1).1
  intro hemp
  have hmem : r ∈ rows.filter fun r => key r = kg.1 :=
    List.mem_filter.mpr ⟨hr, by simp [hkr]⟩
  rw [← h2, hemp] at hmem
  exact List.not_mem_nil r hmem

theorem groupBy_mem_of_key {α K : Type} [DecidableEq K] {key : α → K} {rows : List α}
    {k : K} (h : k ∈ rows.map key) :
    (k, rows.filter fun r => key r = k) ∈ groupBy key rows :=
  mem_groupBy.mpr ⟨mem_dedupFirst.mpr ⟨h, List.not_mem_nil k⟩, rfl⟩

theorem groupBy_countP_key_of_mem {α K : Type} [DecidableEq K] {key : α → K}
    {rows : List α} {k : K} (hk : k ∈ rows.map key) :
    (groupBy key rows).countP (fun kg => kg.1 = k) = 1 := by
  have hmap : (groupBy key rows).countP (fun kg => kg.1 = k)
      = (dedupFirst [] (rows.map key)).countP (fun x => x == k) := by
    unfold groupBy
    rw [List.countP_map]
    rfl
  rw [hmap, ← List.count_eq_countP]
  exact List.count_eq_one_of_mem nodup_dedupFirst
    (mem_dedupFirst.mpr ⟨hk, List.not_mem_nil k⟩)

/-! ## Lemmas about the Score Comparator -/

theorem compare_eq_some {orig : List OrigRow} {supp : List SuppRow} {out : List CmpRow}
    (h : compare_interview_scores orig supp = some out) :
    out = (mergedRows orig supp).map finishRow := by
  simp only [compare_interview_scores] at h
  split at h
  · exact absurd h (by simp)
  · exact (Option.some.inj h).symm

theorem cmpKey_finishRow (m : MergedRow) : cmpKey (finishRow m) = m.info.key := by
  simp [cmpKey, finishRow]

theorem mem_original_info {df : List OrigRow} {i : InfoRow} (h : i ∈ original_info df) :
    ∃ kg ∈ groupBy origKey df, ∃ r : OrigRow, kg.2.head? = some r ∧
      i = ⟨kg.1, r.department, r.title, r.minScore⟩ := by
  unfold original_info at h
  obtain ⟨kg, hkg, hmap⟩ := List.mem_filterMap.mp h
  cases hh : kg.2.head? with
  | none => rw [hh] at hmap; simp at hmap
  | some r =>
    rw [hh] at hmap
    simp only [Option.map_some', Option.some.injEq] at hmap
    exact ⟨kg, hkg, r, hh, hmap.symm⟩

theorem original_info_key_mem {df : List OrigRow} {i : InfoRow}
    (h : i ∈ original_info df) : i.key ∈ df.map origKey := by
  obtain ⟨kg, hkg, r, _, hi⟩ := mem_original_info h
  rw [hi]
  exact groupBy_key_mem hkg

theorem countP_filterMap_headAgg {α β K : Type} [DecidableEq K]
    (mk : K → α → β) (keyOf : β → K)
    (hkey : ∀ k a, keyOf (mk k a) = k) (k : K) :
    ∀ l : List (K × List α), (∀ p ∈ l, p.2 ≠ []) →
      (l.filterMap fun kg => kg.2.head?.map fun r => mk kg.1 r).countP
          (fun b => keyOf b = k)
        = l.countP fun kg => kg.1 = k := by
  intro l
  induction l with
  | nil => simp
  | cons p t ih =>
    intro h
    obtain ⟨r, g', hg⟩ := List.exists_cons_of_ne_nil (h p (List.mem_cons_self _ _))
    obtain ⟨pk, pg⟩ := p
    simp only at hg
    subst hg
    rw [List.filterMap_cons]
    simp only [List.head?_cons, Option.map_some']
    rw [List.countP_cons, List.countP_cons,
      ih fun q hq => h q (List.mem_cons_of_mem _ hq)]
    simp [hkey]

theorem countP_original_info (df : List OrigRow) (k : String × String) :
    (original_info df).countP (fun i => i.key = k)
      = (groupBy origKey df).countP fun kg => kg.1 = k := by
  unfold original_info
  exact countP_filterMap_headAgg
    (fun (key : String × String) (r : OrigRow) =>
      (⟨key, r.department, r.title, r.minScore⟩ : InfoRow)) InfoRow.key
    (fun _ _ => rfl) k _ (fun p hp => groupBy_nonempty hp)

theorem origCount_lookup {df : List OrigRow} {k : String × String}
    (hk : k ∈ df.map origKey) :
    ∃ e, ((original_counts df).find? fun kn => kn.1 = k) = some e ∧ 1 ≤ e.2 := by
  cases hfind : (original_counts df).find? fun kn => kn.1 = k with
  | none =>
    exfalso
    have hall := List.find?_eq_none.mp hfind
    have hmem : (k, (df.filter fun r => origKey r = k).length) ∈ original_counts df := by
      unfold original_counts
      exact List.mem_map.mpr ⟨(k, df.filter fun r => origKey r = k),
        groupBy_mem_of_key hk, rfl⟩
    exact hall _ hmem (by simp)
  | some e =>
    refine ⟨e, rfl, ?_⟩
    have he : e ∈ original_counts df := List.mem_of_find?_eq_some hfind
    unfold original_counts at he
    obtain ⟨kg, hkg, hke⟩ := List.mem_map.mp he
    rw [← hke]
    exact List.length_pos.mpr (groupBy_nonempty hkg)

theorem compare_out_countP {orig : List OrigRow} {supp : List SuppRow}
    {k : String × String} (hk : k ∈ (filteredOrig orig).map origKey) :
    ((mergedRows orig supp).map finishRow).countP (fun r => cmpKey r = k) = 1 := by
  rw [List.countP_map]
  unfold mergedRows
  rw [List.countP_map]
  exact Eq.trans
    (List.countP_congr (q := fun i => decide (i.key = k)) fun i _ => by
      simp [Function.comp, cmpKey_finishRow])
    (by rw [countP_original_info]
        exact groupBy_countP_key_of_mem hk)

/-! ## Claim theorems -/

/-- C2 (amended): for every posting key present in the filtered original
roster — the rows whose 用人司局 contains the regulator marker — the Score
Comparison Report contains exactly one row carrying that key. -/
theorem score_report_one_row_per_filtered_key
    {orig : List OrigRow} {supp : List SuppRow} {out : List CmpRow}
    (h : compare_interview_scores orig supp = some out)
    {k : String × String} (hk : k ∈ (filteredOrig orig).map origKey) :
    (out.filter fun r => cmpKey r = k).length = 1 := by
  rw [compare_eq_some h, ← List.countP_eq_length_filter]
  exact compare_out_countP hk

/-- C2 counterexample: as stated, the claim fails for a posting key whose
original-roster rows do not pass the department filter — the key is
present in the original roster, yet the report contains no row for it. -/
theorem score_report_unfiltered_key_dropped :
    compare_interview_scores [c2CexOrig] [] = some [] ∧
    origKey c2CexOrig ∈ [c2CexOrig].map origKey ∧
    (([] : List CmpRow).filter fun r => cmpKey r = origKey c2CexOrig).length = 0 :=
  ⟨by decide, by decide, by decide⟩

-- Witness for C2's amended theorem at a concrete roster.
unseal Rat.sub Rat.add Rat.mul Rat.inv in
theorem score_report_one_row_per_filtered_key_witness :
    compare_interview_scores [sampleOrig] [sampleSupp] = some [sampleCmpOut] ∧
    origKey sampleOrig ∈ (filteredOrig [sampleOrig]).map origKey ∧
    ([sampleCmpOut].filter fun r => cmpKey r = origKey sampleOrig).length = 1 :=
  ⟨by decide, by decide,
    @score_report_one_row_per_filtered_key [sampleOrig] [sampleSupp] [sampleCmpOut]
      (by decide) (origKey sampleOrig) (by decide)⟩

/-- C10 (confirmed): every row of the Score Comparison Report carries an
original candidate count that is present (not missing) and at least 1:
the per-key counts are grouped from the same filtered roster as the
per-key metadata, so the left merge always finds a nonempty group. -/
theorem score_report_orig_count_pos
    {orig : List OrigRow} {supp : List SuppRow} {out : List CmpRow}
    (h : compare_interview_scores orig supp = some out) :
    ∀ r ∈ out, ∃ n : ℕ, r.origCount = some n ∧ 1 ≤ n := by
  intro r hr
  rw [compare_eq_some h] at hr
  obtain ⟨m, hm, rfl⟩ := List.mem_map.mp hr
  unfold mergedRows at hm
  obtain ⟨i, hi, rfl⟩ := List.mem_map.mp hm
  obtain ⟨e, he, h1⟩ := origCount_lookup (original_info_key_mem hi)
  exact ⟨e.2, by simp [finishRow, he], h1⟩

-- Witness for C10's theorem at a concrete roster.
unseal Rat.sub Rat.add Rat.mul Rat.inv in
theorem score_report_orig_count_pos_witness :
    compare_interview_scores [sampleOrig] [sampleSupp] = some [sampleCmpOut] ∧
    (∃ n : ℕ, sampleCmpOut.origCount = some n ∧ 1 ≤ n) :=
  ⟨by decide, @score_report_orig_count_pos [sampleOrig] [sampleSupp] [sampleCmpOut]
    (by decide) sampleCmpOut (by decide)⟩

/-- `Nat.digitChar` of a value below ten is an ASCII digit. -/
theorem digitChar_isDigit {n : ℕ} (h : n < 10) : (Nat.digitChar n).isDigit = true := by
  interval_cases n <;> decide

theorem pad3_length (n : ℕ) : (pad3 n).length = 3 := rfl

theorem pad3_digits (n : ℕ) : (pad3 n).toList.all Char.isDigit = true := by
  have h1 : n / 100 % 10 < 10 := Nat.mod_lt _ (by norm_num)
  have h2 : n / 10 % 10 < 10 := Nat.mod_lt _ (by norm_num)
  have h3 : n % 10 < 10 := Nat.mod_lt _ (by norm_num)
  simp [pad3, digitChar_isDigit h1, digitChar_isDigit h2, digitChar_isDigit h3]

/-- Every `fmtSigned3` rendering is an explicit sign, an integer part,
a dot, and a three-digit fractional part. -/
theorem fmtSigned3_structure (x : ℚ) :
    ∃ ip fp : ℕ,
      fmtSigned3 x = "+" ++ toString ip ++ "." ++ pad3 fp ∨
      fmtSigned3 x = "-" ++ toString ip ++ "." ++ pad3 fp := by
  unfold fmtSigned3
  by_cases hm : roundHalfEven (x * 1000) < 0
  · exact ⟨(roundHalfEven (x * 1000)).natAbs / 1000,
      (roundHalfEven (x * 1000)).natAbs % 1000, Or.inr (by simp only [if_pos hm])⟩
  · exact ⟨(roundHalfEven (x * 1000)).natAbs / 1000,
      (roundHalfEven (x * 1000)).natAbs % 1000, Or.inl (by simp only [if_neg hm])⟩

/-- C1 (confirmed): in every Score Comparison Report row whose backfill
minimum score and original minimum score are both numeric, the delta
field is the `+.3f` rendering of backfill minus original — a string with
an explicit leading sign and exactly three (digit) decimal places. -/
theorem score_report_delta_rendering
    {orig : List OrigRow} {supp : List SuppRow} {out : List CmpRow}
    (h : compare_interview_scores orig supp = some out) :
    ∀ r ∈ out, ∀ b o : ℚ, r.suppMinScore = .num b → r.minScore = .num o →
      r.delta = fmtSigned3 (b - o) ∧
      ∃ ip fp : ℕ,
        ((r.delta = "+" ++ toString ip ++ "." ++ pad3 fp ∨
          r.delta = "-" ++ toString ip ++ "." ++ pad3 fp) ∧
         (pad3 fp).length = 3 ∧ (pad3 fp).toList.all Char.isDigit = true) := by
  intro r hr b o hb ho
  rw [compare_eq_some h] at hr
  obtain ⟨m, hm, rfl⟩ := List.mem_map.mp hr
  have hfill : fillDash m.suppMinScore = .num b := hb
  have hmin : m.info.minScore = .num o := ho
  have hdelta : (finishRow m).delta = fmtSigned3 (b - o) := by
    simp only [finishRow]
    rw [hfill, hmin]
    simp [toNumeric]
  refine ⟨hdelta, ?_⟩
  obtain ⟨ip, fp, hor⟩ := fmtSigned3_structure (b - o)
  exact ⟨ip, fp, by rw [hdelta]; exact hor, pad3_length fp, pad3_digits fp⟩

-- Witness for C1's theorem: the spec's worked example, delta "+0.500".
unseal Rat.sub Rat.add Rat.mul Rat.inv in
theorem score_report_delta_rendering_witness :
    compare_interview_scores [sampleOrig] [sampleSupp] = some [sampleCmpOut] ∧
    sampleCmpOut.suppMinScore = .num 83 ∧
    sampleCmpOut.minScore = .num (165/2) ∧
    (sampleCmpOut.delta = fmtSigned3 (83 - 165/2) ∧
     ∃ ip fp : ℕ,
       ((sampleCmpOut.delta = "+" ++ toString ip ++ "." ++ pad3 fp ∨
         sampleCmpOut.delta = "-" ++ toString ip ++ "." ++ pad3 fp) ∧
        (pad3 fp).length = 3 ∧ (pad3 fp).toList.all Char.isDigit = true)) :=
  ⟨by decide, by decide, by decide,
    @score_report_delta_rendering [sampleOrig] [sampleSupp] [sampleCmpOut]
      (by decide) sampleCmpOut (by decide) 83 (165/2) (by decide) (by decide)⟩

/-- C7 (confirmed): in every Score Comparison Report row whose delta is
not computable — the backfill score coerces to NaN (missing placeholder
or a non-numeric string) or the original score is not a number — the
delta field is exactly the placeholder token, which is not parseable as
a number. -/
theorem score_report_delta_not_computable
    {orig : List OrigRow} {supp : List SuppRow} {out : List CmpRow}
    (h : compare_interview_scores orig supp = some out) :
    ∀ r ∈ out, (toNumeric r.suppMinScore = none ∨ r.minScore.isNum = false) →
      r.delta = "--" ∧ parseNumeric r.delta = none := by
  intro r hr hbad
  rw [compare_eq_some h] at hr
  obtain ⟨m, hm, rfl⟩ := List.mem_map.mp hr
  have hdelta : (finishRow m).delta = "--" := by
    have hb : toNumeric (fillDash m.suppMinScore) = none ∨
        m.info.minScore.isNum = false := hbad
    simp only [finishRow]
    rcases hv : toNumeric (fillDash m.suppMinScore) with _ | b
    · cases m.info.minScore <;> rfl
    · rcases hw : m.info.minScore with q | s | _
      · rw [hv, hw] at hb
        rcases hb with hb | hb
        · exact absurd hb (by simp)
        · exact absurd hb (by simp [Value.isNum])
      · rfl
      · rfl
  exact ⟨hdelta, by rw [hdelta]; decide⟩

-- Witness for C7's theorem: a posting with no backfill activity, whose
-- backfill score column holds the placeholder.
unseal Rat.sub Rat.add Rat.mul Rat.inv in
theorem score_report_delta_not_computable_witness :
    compare_interview_scores [sampleOrig] [] = some [sampleCmpNoSupp] ∧
    (toNumeric sampleCmpNoSupp.suppMinScore = none ∨
      sampleCmpNoSupp.minScore.isNum = false) ∧
    (sampleCmpNoSupp.delta = "--" ∧ parseNumeric sampleCmpNoSupp.delta = none) :=
  ⟨by decide, by decide,
    @score_report_delta_not_computable [sampleOrig] [] [sampleCmpNoSupp]
      (by decide) sampleCmpNoSupp (by decide) (by decide)⟩

/-! ## Lemmas about the Backfill-Admission Matcher -/

theorem mem_admitted {supp : List SuppRow} {adm : List AdmRow}
    {p : SuppRow × AdmRowCoded} (h : p ∈ admitted_supplementary supp adm) :
    p.1 ∈ supp ∧ ∃ a ∈ adm, p.2 = codeRow a ∧ joinMatch p.1 p.2 = true := by
  unfold admitted_supplementary at h
  obtain ⟨s, hs, hp⟩ := List.mem_flatMap.mp h
  obtain ⟨a', ha', rfl⟩ := List.mem_map.mp hp
  obtain ⟨hmem, hjm⟩ := List.mem_filter.mp ha'
  unfold addPosCode at hmem
  obtain ⟨a, ha, rfl⟩ := List.mem_map.mp hmem
  exact ⟨hs, a, ha, rfl, hjm⟩

theorem mem_analyze_supplementary {supp : List SuppRow} {adm : List AdmRow}
    {row : AdmResultRow} (h : row ∈ analyze_supplementary_admission supp adm) :
    ∃ kg ∈ groupBy pairKey (admitted_supplementary supp adm),
      ∃ p : SuppRow × AdmRowCoded, kg.2.head? = some p ∧
        row = { agency := kg.1.1
                posCode := kg.1.2
                department := p.1.department
                recruitTitle := p.1.recruitTitle
                hiredCount := countDelim (joinNames (kg.2.map fun q => q.1.name)) + 1
                hiredNames := joinNames (kg.2.map fun q => q.1.name) } := by
  unfold analyze_supplementary_admission at h
  obtain ⟨kg, hkg, hmap⟩ := List.mem_filterMap.mp h
  cases hh : kg.2.head? with
  | none => rw [hh] at hmap; simp at hmap
  | some p =>
    rw [hh] at hmap
    simp only [Option.map_some', Option.some.injEq] at hmap
    exact ⟨kg, hkg, p, hh, hmap.symm⟩

/-- C3 (confirmed): the Backfill-Admission Matcher emits no row for a
posting key under which no (authority, position code, candidate name)
triple of the backfill roster matches an admission-roster row. -/
theorem matcher_no_row_for_unmatched_key
    (supp : List SuppRow) (adm : List AdmRow) (k : String × String)
    (h : ∀ s ∈ supp, suppKey s = k → ∀ a ∈ adm, joinMatch s (codeRow a) = false) :
    ∀ row ∈ analyze_supplementary_admission supp adm, admResultKey row ≠ k := by
  intro row hrow hk
  obtain ⟨kg, hkg, p, hp, hroweq⟩ := mem_analyze_supplementary hrow
  have hkey : kg.1 = k := by
    rw [← hk, hroweq]
    simp [admResultKey]
  obtain ⟨q, hq, hqk⟩ := List.mem_map.mp (groupBy_key_mem hkg)
  obtain ⟨hs, a, ha, hqa, hjm⟩ := mem_admitted hq
  have hsk : suppKey q.1 = k := by
    rw [← hkey, ← hqk]
    rfl
  have := h q.1 hs hsk a ha
  rw [← hqa, hjm] at this
  exact Bool.true_eq_false.mp this

-- Witness for C3's theorem: a backfill roster and an admission roster
-- with no matching triple for the backfill posting's key.
theorem matcher_no_row_for_unmatched_key_witness :
    (∀ s ∈ [sampleSupp], suppKey s = suppKey sampleSupp →
      ∀ a ∈ [c3AdmNoMatch], joinMatch s (codeRow a) = false) ∧
    analyze_supplementary_admission [sampleSupp] [c3AdmNoMatch] = [] ∧
    (∀ row ∈ analyze_supplementary_admission [sampleSupp] [c3AdmNoMatch],
      admResultKey row ≠ suppKey sampleSupp) :=
  ⟨by decide, by decide,
    matcher_no_row_for_unmatched_key [sampleSupp] [c3AdmNoMatch]
      (suppKey sampleSupp) (by decide)⟩

theorem countDelim_append (a b : String) :
    countDelim (a ++ b) = countDelim a + countDelim b := by
  simp [countDelim, String.toList, List.count_append]

/-- Joining delimiter-free names introduces exactly one delimiter per
gap: delimiters + 1 = number of names. -/
theorem countDelim_joinNames :
    ∀ l : List String, l ≠ [] → (∀ x ∈ l, countDelim x = 0) →
      countDelim (joinNames l) + 1 = l.length := by
  intro l
  induction l with
  | nil => intro h; exact absurd rfl h
  | cons x t ih =>
    intro _ hall
    cases t with
    | nil => simp [joinNames, hall x (by simp)]
    | cons y t2 =>
      have hx := hall x (by simp)
      have ht := ih (by simp) fun z hz => hall z (List.mem_cons_of_mem _ hz)
      show countDelim (x ++ "、" ++ joinNames (y :: t2)) + 1 = (x :: y :: t2).length
      rw [countDelim_append, countDelim_append, hx]
      have hd : countDelim "、" = 1 := rfl
      rw [hd]
      simp only [List.length_cons] at ht ⊢
      omega

/-- C6 (amended): every Admission Report row's hired count equals the
number of delimiter occurrences in its joined names string plus one;
when no matched candidate name grouped under the row's key contains the
delimiter, this also equals the number of matched candidate rows for
that key. -/
theorem matcher_hired_count (supp : List SuppRow) (adm : List AdmRow) :
    ∀ row ∈ analyze_supplementary_admission supp adm,
      row.hiredCount = countDelim row.hiredNames + 1 ∧
      ((∀ p ∈ admitted_supplementary supp adm, pairKey p = admResultKey row →
          countDelim p.1.name = 0) →
        row.hiredCount
          = ((admitted_supplementary supp adm).filter fun p =>
              pairKey p = admResultKey row).length) := by
  intro row hrow
  obtain ⟨kg, hkg, p, hp, hroweq⟩ := mem_analyze_supplementary hrow
  refine ⟨by rw [hroweq], ?_⟩
  intro hnd
  have hkey : admResultKey row = kg.1 := by
    rw [hroweq]
    simp [admResultKey]
  obtain ⟨hdk, hflt⟩ := mem_groupBy.mp hkg
  have hne : kg.2 ≠ [] := groupBy_nonempty hkg
  have hlen : (kg.2.map fun q => q.1.name) ≠ [] := by simpa using hne
  have hall : ∀ x ∈ kg.2.map fun q => q.1.name, countDelim x = 0 := by
    intro x hx
    obtain ⟨q, hq, rfl⟩ := List.mem_map.mp hx
    have hqmem : q ∈ (admitted_supplementary supp adm).filter fun p =>
        pairKey p = kg.1 := by
      rw [← hflt]
      exact hq
    obtain ⟨hq1, hq2⟩ := List.mem_filter.mp hqmem
    exact hnd q hq1 (by rw [hkey]; exact of_decide_eq_true hq2)
  have hcount := countDelim_joinNames _ hlen hall
  rw [hkey, hroweq]
  show countDelim (joinNames (kg.2.map fun q => q.1.name)) + 1
      = ((admitted_supplementary supp adm).filter fun p => pairKey p = kg.1).length
  rw [hcount, List.length_map, hflt]

/-- C6 counterexample: as stated, the claim fails when a matched
candidate's name itself contains the delimiter — one matched row for the
key, yet a hired count of 2. -/
theorem matcher_hired_count_overstated :
    analyze_supplementary_admission [c6Supp] [c6Adm] = [c6Row] ∧
    c6Row.hiredCount = 2 ∧
    ((admitted_supplementary [c6Supp] [c6Adm]).filter fun p =>
      pairKey p = admResultKey c6Row).length = 1 :=
  ⟨by decide, by decide, by decide⟩

-- Witness for C6's amended theorem: a delimiter-free candidate name,
-- where the count equals both delimiters + 1 and the matched-row count.
theorem matcher_hired_count_witness :
    (sampleAdmResult.hiredCount = countDelim sampleAdmResult.hiredNames + 1) ∧
    sampleAdmResult.hiredCount
      = ((admitted_supplementary [sampleSupp] [sampleAdm]).filter fun p =>
          pairKey p = admResultKey sampleAdmResult).length :=
  ⟨(matcher_hired_count [sampleSupp] [sampleAdm] sampleAdmResult (by decide)).1,
   (matcher_hired_count [sampleSupp] [sampleAdm] sampleAdmResult (by decide)).2
     (by decide)⟩

/-- C5 (confirmed): the extracted position code exists iff the
proposed-position string ends in a block of twelve digits, and is then
exactly that trailing block; admission rows whose extraction failed can
never appear in the Backfill-Admission join, since every joined pair
carries the backfill row's (present) position code. -/
theorem extract_position_code_spec :
    (∀ s c : String, extract_position_code s = some c ↔
      ((∃ t : String, s = t ++ c) ∧ c.length = 12 ∧
        c.toList.all Char.isDigit = true)) ∧
    (∀ (supp : List SuppRow) (adm : List AdmRow),
      ∀ p ∈ admitted_supplementary supp adm,
        p.2.posCode = some p.1.posCode) := by
  constructor
  · intro s c
    constructor
    · intro h
      simp only [extract_position_code] at h
      split at h
      case isTrue hcond =>
        obtain ⟨hle, hdig⟩ := hcond
        have hc : String.mk (s.toList.drop (s.toList.length - 12)) = c :=
          Option.some.inj h
        refine ⟨⟨String.mk (s.toList.take (s.toList.length - 12)), ?_⟩, ?_, ?_⟩
        · rw [← hc]
          show s = String.mk
            (s.toList.take (s.toList.length - 12) ++ s.toList.drop (s.toList.length - 12))
          rw [List.take_append_drop]
          rfl
        · rw [← hc]
          show (s.toList.drop (s.toList.length - 12)).length = 12
          rw [List.length_drop]
          omega
        · rw [← hc]
          exact hdig
      case isFalse => exact absurd h (by simp)
    · rintro ⟨⟨t, rfl⟩, hlen, hdig⟩
      have hdata : (t ++ c).toList = t.toList ++ c.toList := rfl
      have hclen : c.toList.length = 12 := hlen
      have hle : 12 ≤ (t ++ c).toList.length := by
        rw [hdata, List.length_append]
        omega
      have hdrop : (t ++ c).toList.drop ((t ++ c).toList.length - 12) = c.toList := by
        rw [hdata, List.length_append]
        have hsub : t.toList.length + c.toList.length - 12 = t.toList.length := by
          omega
        rw [hsub]
        exact List.drop_left _ _
      simp only [extract_position_code]
      rw [if_pos ⟨hle, by rw [hdrop]; exact hdig⟩, hdrop]
      rfl
  · intro supp adm p hp
    obtain ⟨_, a, _, _, hjm⟩ := mem_admitted hp
    exact (of_decide_eq_true hjm).2.1

-- Witness for C5's theorem: a concrete proposed-position string with a
-- twelve-digit suffix, and a concrete joined pair.
theorem extract_position_code_spec_witness :
    extract_position_code c5str = some "410100100001" ∧
    (sampleSupp, codeRow sampleAdm).2.posCode
      = some (sampleSupp, codeRow sampleAdm).1.posCode :=
  ⟨(extract_position_code_spec.1 c5str "410100100001").mpr
      ⟨⟨"国家金融监督管理总局机关一级主任科员", by decide⟩, by decide, by decide⟩,
   extract_position_code_spec.2 [sampleSupp] [sampleAdm]
     (sampleSupp, codeRow sampleAdm) (by decide)⟩

/-! ## Lemmas about the Cross Analyzer -/

theorem mem_outerMergeRows {ls : List CmpRow} {rs : List AdmResultRow}
    {row : CrossRow} (h : row ∈ outerMergeRows ls rs) :
    (∃ l ∈ ls, row = crossRowOf (cmpKey l) (some l) none) ∨
    (∃ l ∈ ls, ∃ r ∈ rs, row = crossRowOf (cmpKey l) (some l) (some r)) ∨
    (∃ r ∈ rs, row = crossRowOf (admResultKey r) none (some r)) := by
  unfold outerMergeRows at h
  rcases List.mem_append.mp h with h1 | h2
  · obtain ⟨l, hl, hrow⟩ := List.mem_flatMap.mp h1
    rcases hfil : rs.filter fun r => admResultKey r = cmpKey l with _ | ⟨r0, ms⟩
    · rw [hfil] at hrow
      simp only [List.mem_singleton] at hrow
      exact Or.inl ⟨l, hl, hrow⟩
    · rw [hfil] at hrow
      obtain ⟨r, hr, hrw⟩ := List.mem_map.mp hrow
      have hrmem : r ∈ rs := by
        refine List.mem_of_mem_filter (p := fun r => admResultKey r = cmpKey l) ?_
        rw [hfil]
        exact hr
      exact Or.inr (Or.inl ⟨l, hl, r, hrmem, hrw.symm⟩)
  · obtain ⟨r, hr, hrw⟩ := List.mem_map.mp h2
    exact Or.inr (Or.inr ⟨r, List.mem_of_mem_filter hr, hrw.symm⟩)

-- A missing admission partner coerces to a hired count of 0.
unseal Rat.mul Rat.inv in
theorem coerceHiredCount_none : coerceHiredCount none = 0 := by decide

/-- A present admission count passes through the coercion chain intact. -/
theorem coerceHiredCount_some (n : ℕ) : coerceHiredCount (some n) = (n : ℤ) := by
  simp only [coerceHiredCount]
  rw [if_neg (by simp)]
  simp only [toNumeric]
  unfold truncToInt
  rw [if_neg (not_lt.mpr (by positivity))]
  exact Int.floor_natCast n

/-- C8 (confirmed): every Cross Analysis row's hired count is a
non-negative integer — the natural-number count of a matched Admission
Report row, or 0 when the outer join left the column to be filled with
the placeholder — never the placeholder itself. -/
theorem cross_hired_count_integer (scores : List CmpRow) (adm : List AdmResultRow) :
    ∀ row ∈ cross_analyze_results scores adm,
      (∃ n : ℕ, row.hiredCount = (n : ℤ)) ∧
      (row.hiredCount = 0 ∨ ∃ a ∈ adm, row.hiredCount = (a.hiredCount : ℤ)) := by
  intro row hrow
  rcases mem_outerMergeRows hrow with ⟨l, hl, rfl⟩ | ⟨l, hl, r, hr, rfl⟩ | ⟨r, hr, rfl⟩
  · have h0 : (crossRowOf (cmpKey l) (some l) none).hiredCount = 0 :=
      coerceHiredCount_none
    exact ⟨⟨0, h0⟩, Or.inl h0⟩
  · have h1 : (crossRowOf (cmpKey l) (some l) (some r)).hiredCount
        = (r.hiredCount : ℤ) := coerceHiredCount_some r.hiredCount
    exact ⟨⟨r.hiredCount, h1⟩, Or.inr ⟨r, hr, h1⟩⟩
  · have h1 : (crossRowOf (admResultKey r) none (some r)).hiredCount
        = (r.hiredCount : ℤ) := coerceHiredCount_some r.hiredCount
    exact ⟨⟨r.hiredCount, h1⟩, Or.inr ⟨r, hr, h1⟩⟩

-- Witness for C8's theorem at a concrete pair of reports.
unseal Rat.sub Rat.add Rat.mul Rat.inv in
theorem cross_hired_count_integer_witness :
    cross_analyze_results [sampleCmpOut] [sampleAdmResult] = [sampleCrossOut] ∧
    ((∃ n : ℕ, sampleCrossOut.hiredCount = (n : ℤ)) ∧
     (sampleCrossOut.hiredCount = 0 ∨
       ∃ a ∈ [sampleAdmResult], sampleCrossOut.hiredCount = (a.hiredCount : ℤ))) :=
  ⟨by decide, cross_hired_count_integer [sampleCmpOut] [sampleAdmResult]
    sampleCrossOut (by decide)⟩

/-- C4 (confirmed): position codes are carried through every stage as
strings equal character-for-character to an input row's code: each Score
Comparison row's code is some original-roster row's code, each Admission
Report row's code is some backfill-roster row's code, and each Cross
Analysis row's code comes verbatim from one of its two input reports. -/
theorem position_code_preserved :
    (∀ (orig : List OrigRow) (supp : List SuppRow) (out : List CmpRow),
      compare_interview_scores orig supp = some out →
      ∀ r ∈ out, ∃ i ∈ orig, r.posCode = i.posCode) ∧
    (∀ (supp : List SuppRow) (adm : List AdmRow),
      ∀ r ∈ analyze_supplementary_admission supp adm,
        ∃ s ∈ supp, r.posCode = s.posCode) ∧
    (∀ (scores : List CmpRow) (adm : List AdmResultRow),
      ∀ r ∈ cross_analyze_results scores adm,
        (∃ c ∈ scores, r.posCode = c.posCode) ∨
        (∃ a ∈ adm, r.posCode = a.posCode)) := by
  refine ⟨?_, ?_, ?_⟩
  · intro orig supp out h r hr
    rw [compare_eq_some h] at hr
    obtain ⟨m, hm, rfl⟩ := List.mem_map.mp hr
    unfold mergedRows at hm
    obtain ⟨i, hi, rfl⟩ := List.mem_map.mp hm
    obtain ⟨rr, hrr, hkey⟩ := List.mem_map.mp (original_info_key_mem hi)
    refine ⟨rr, List.mem_of_mem_filter hrr, ?_⟩
    show i.key.2 = rr.posCode
    rw [← hkey]
    rfl
  · intro supp adm r hr
    obtain ⟨kg, hkg, p, hp, hroweq⟩ := mem_analyze_supplementary hr
    obtain ⟨q, hq, hqk⟩ := List.mem_map.mp (groupBy_key_mem hkg)
    obtain ⟨hs, _, _, _, _⟩ := mem_admitted hq
    refine ⟨q.1, hs, ?_⟩
    rw [hroweq]
    show kg.1.2 = q.1.posCode
    rw [← hqk]
    rfl
  · intro scores adm r hr
    rcases mem_outerMergeRows hr with ⟨l, hl, rfl⟩ | ⟨l, hl, rr, hrr, rfl⟩ | ⟨rr, hrr, rfl⟩
    · exact Or.inl ⟨l, hl, rfl⟩
    · exact Or.inl ⟨l, hl, rfl⟩
    · exact Or.inr ⟨rr, hrr, rfl⟩

-- Witness for C4's theorem: one concrete row of each output table.
unseal Rat.sub Rat.add Rat.mul Rat.inv in
theorem position_code_preserved_witness :
    (∃ i ∈ [sampleOrig], sampleCmpOut.posCode = i.posCode) ∧
    (∃ s ∈ [sampleSupp], sampleAdmResult.posCode = s.posCode) ∧
    ((∃ c ∈ [sampleCmpOut], sampleCrossOut.posCode = c.posCode) ∨
     (∃ a ∈ [sampleAdmResult], sampleCrossOut.posCode = a.posCode)) :=
  ⟨position_code_preserved.1 [sampleOrig] [sampleSupp] [sampleCmpOut] (by decide)
     sampleCmpOut (by decide),
   position_code_preserved.2.1 [sampleSupp] [sampleAdm] sampleAdmResult (by decide),
   position_code_preserved.2.2 [sampleCmpOut] [sampleAdmResult] sampleCrossOut
     (by decide)⟩

/-- C9 (code-bug evidence): with both stage outputs already present under
`result/` — and nothing at the bare filenames the gate actually checks —
`os.path.exists` sees neither output, so both stages run anyway, deleting
and rewriting the existing files instead of being skipped. -/
theorem main_gating_ignores_written_outputs :
    fileExists [savedPath score_result_file, savedPath admission_result_file]
        (savedPath score_result_file) = true ∧
    fileExists [savedPath score_result_file, savedPath admission_result_file]
        (savedPath admission_result_file) = true ∧
    (main_run [savedPath score_result_file, savedPath admission_result_file]).1
        = true ∧
    (main_run [savedPath score_result_file, savedPath admission_result_file]).2.1
        = true :=
  ⟨by decide, by decide, by decide, by decide⟩
